import Mathlib

/-!
Shallow embedding of `resume-tailor.py` (deterministic preprocessing and
validation for resume tailoring).  Strings are modelled as `List Char`
(ASCII behaviour of Python's `str` operations), Python sets of strings as
duplicate-free lists, and the regular expressions of the source as explicit
character-level scanners with the same backtracking behaviour.
-/

namespace ResumeTailor

abbrev Str := List Char

/-- Python whitespace class `\s` (ASCII). -/
def isWsChar (c : Char) : Bool :=
  c = ' ' || c = '\t' || c = '\n' || c = '\r' || c = '\x0b' || c = '\x0c'

/-- Word character for the regex class `\w` (ASCII): letters, digits, underscore. -/
def isWordChar (c : Char) : Bool :=
  c.isAlphanum || c = '_'

/-- The ASCII case table: upper-case letter paired with its lower-case form. -/
def casePairs : List (Char × Char) :=
  [('A', 'a'), ('B', 'b'), ('C', 'c'), ('D', 'd'), ('E', 'e'), ('F', 'f'),
   ('G', 'g'), ('H', 'h'), ('I', 'i'), ('J', 'j'), ('K', 'k'), ('L', 'l'),
   ('M', 'm'), ('N', 'n'), ('O', 'o'), ('P', 'p'), ('Q', 'q'), ('R', 'r'),
   ('S', 's'), ('T', 't'), ('U', 'u'), ('V', 'v'), ('W', 'w'), ('X', 'x'),
   ('Y', 'y'), ('Z', 'z')]

/-- ASCII lower-casing of one character, as Python's `str.lower` acts on ASCII. -/
def lowerChar (c : Char) : Char :=
  ((casePairs.find? (fun p => p.1 == c)).map Prod.snd).getD c

/-- ASCII upper-casing of one character, as Python's `str.upper` acts on ASCII. -/
def upperChar (c : Char) : Char :=
  ((casePairs.find? (fun p => p.2 == c)).map Prod.fst).getD c

def pyLower (s : Str) : Str := s.map lowerChar

def pyUpper (s : Str) : Str := s.map upperChar

/-- Python `str.strip()`. -/
def strip (s : Str) : Str :=
  ((s.dropWhile isWsChar).reverse.dropWhile isWsChar).reverse

/-- Python `str.split('\n')`: always returns at least one (possibly empty) line. -/
def splitOnNl : Str → List Str
  | [] => [[]]
  | c :: rest =>
    let r := splitOnNl rest
    if c = '\n' then [] :: r
    else
      match r with
      | [] => [[c]]
      | h :: t => (c :: h) :: t

/-- Join with a separator character (used for `'\n'.join` / `' '.join`). -/
def joinWith (sep : Char) : List Str → Str
  | [] => []
  | [l] => l
  | l :: ls => l ++ sep :: joinWith sep ls

/-- Maximal runs of characters satisfying `p`, in order (non-`p` characters dropped). -/
def splitRuns (p : Char → Bool) : Str → List Str
  | [] => []
  | c :: rest =>
    let r := splitRuns p rest
    if p c then
      match rest with
      | [] => [[c]]
      | d :: _ =>
        if p d then
          match r with
          | [] => [[c]]
          | h :: t => (c :: h) :: t
        else [c] :: r
    else r

/-- Characters allowed inside a token of the regex `\b[\w-]+\b`. -/
def tokenChar (c : Char) : Bool := isWordChar c || c = '-'

def trimHyphens (s : Str) : Str :=
  ((s.dropWhile (fun c => c = '-')).reverse.dropWhile (fun c => c = '-')).reverse

/-- `re.findall(r'\b[\w-]+\b', s.lower())` as a set of tokens: each maximal run of
word/hyphen characters contributes its hyphen-trimmed core (dropped when no word
character remains). -/
def tokenize (s : Str) : List Str :=
  ((splitRuns tokenChar (pyLower s)).map trimHyphens).filter (fun t => !t.isEmpty)

/-- First-occurrence deduplication (model of a Python `set` built from a list). -/
def dedup : List Str → List Str
  | [] => []
  | x :: xs => x :: (dedup xs).filter (fun y => decide (y ≠ x))

/-- Python `str.find`: index of the first occurrence of `pat` in `s`, if any. -/
def pyFind (pat : Str) : Str → Option Nat
  | [] => if pat = [] then some 0 else none
  | c :: rest =>
    if pat.isPrefixOf (c :: rest) then some 0
    else (pyFind pat rest).map (· + 1)

/-- Python's `pat in s` substring test. -/
def containsSub (pat s : Str) : Bool := (pyFind pat s).isSome

/-- Python `str(n)` for a natural number: auxiliary fuel recursion. -/
def natDigitsAux : Nat → Nat → Str
  | 0, _ => []
  | fuel + 1, n =>
    if n = 0 then []
    else natDigitsAux fuel (n / 10) ++ [Nat.digitChar (n % 10)]

def pyNatStr (n : Nat) : Str :=
  if n = 0 then ['0'] else natDigitsAux (n + 1) n

/-- Characters of the class `[\d.,]` in the money alternative of the metric regex. -/
def isMoneyChar (c : Char) : Bool := c.isDigit || c = '.' || c = ','

/-- One attempt of the metric regex `\$[\d.,]+[MBK]?|\d+%|\d+x|\d+\+` at the head of
`s`; returns the matched text and the remainder. -/
def matchMetricAt (s : Str) : Option (Str × Str) :=
  match s with
  | [] => none
  | '$' :: rest =>
    let run := rest.takeWhile isMoneyChar
    if run.isEmpty then none
    else
      match rest.drop run.length with
      | 'M' :: r2 => some ('$' :: run ++ ['M'], r2)
      | 'B' :: r2 => some ('$' :: run ++ ['B'], r2)
      | 'K' :: r2 => some ('$' :: run ++ ['K'], r2)
      | r => some ('$' :: run, r)
  | c :: _ =>
    if c.isDigit then
      let ds := s.takeWhile Char.isDigit
      match s.drop ds.length with
      | '%' :: r2 => some (ds ++ ['%'], r2)
      | 'x' :: r2 => some (ds ++ ['x'], r2)
      | '+' :: r2 => some (ds ++ ['+'], r2)
      | _ => none
    else none

def findMetricsAux : Nat → Str → List Str
  | 0, _ => []
  | _, [] => []
  | fuel + 1, c :: rest =>
    match matchMetricAt (c :: rest) with
    | some (m, rem) => m :: findMetricsAux fuel rem
    | none => findMetricsAux fuel rest

/-- `re.findall(r'\$[\d.,]+[MBK]?|\d+%|\d+x|\d+\+', text)` (duplicates kept). -/
def findMetrics (s : Str) : List Str := findMetricsAux s.length s

/-- `extract_metrics`: the same matches collected into a set. -/
def extract_metrics (s : Str) : List Str := dedup (findMetrics s)

/-- One attempt of `(\d+)\+?\s*years?\s+(?:of\s+)?experience` at the head of `s`;
returns the digit capture and the remainder after the match. -/
def matchExpAt (s : Str) : Option (Str × Str) :=
  let ds := s.takeWhile Char.isDigit
  if ds.isEmpty then none
  else
    let r1 := s.drop ds.length
    let r2 := match r1 with
      | '+' :: t => t
      | _ => r1
    let r3 := r2.dropWhile isWsChar
    if ("year".toList).isPrefixOf r3 then
      let r4 := r3.drop 4
      let r5 := match r4 with
        | 's' :: t => t
        | _ => r4
      let ws := r5.takeWhile isWsChar
      if ws.isEmpty then none
      else
        let r6 := r5.drop ws.length
        let r7 :=
          if ("of".toList).isPrefixOf r6 && !((r6.drop 2).takeWhile isWsChar).isEmpty then
            (r6.drop 2).dropWhile isWsChar
          else r6
        if ("experience".toList).isPrefixOf r7 then some (ds, r7.drop 10)
        else none
    else none

def expMatchesAux : Nat → Str → List Str
  | 0, _ => []
  | _, [] => []
  | fuel + 1, c :: rest =>
    match matchExpAt (c :: rest) with
    | some (ds, rem) => ds :: expMatchesAux fuel rem
    | none => expMatchesAux fuel rest

/-- `re.findall(r'(\d+)\+?\s*years?\s+(?:of\s+)?experience', s)`: the digit captures. -/
def expMatches (s : Str) : List Str := expMatchesAux s.length s

/-- One word `[A-Z][a-z]+` (with the maximal lower-case run) at the head of `s`. -/
def capsWordAt (s : Str) : Option (Str × Str) :=
  match s with
  | [] => none
  | c :: rest =>
    if c.isUpper then
      let lows := rest.takeWhile Char.isLower
      if lows.isEmpty then none else some (c :: lows, rest.dropWhile Char.isLower)
    else none

/-- Greedy extension `(?:\s+[A-Z][a-z]+)*` followed by the trailing `\b` of the
proper-noun regex: returns the extension text and remainder, or `none` when no
extension keeps the final word boundary valid (the caller then checks the
boundary right after the first word). -/
def capsExtend : Nat → Str → Option (Str × Str)
  | 0, _ => none
  | fuel + 1, s =>
    let ws := s.takeWhile isWsChar
    if ws.isEmpty then none
    else
      match capsWordAt (s.dropWhile isWsChar) with
      | none => none
      | some (w, rem) =>
        match capsExtend fuel rem with
        | some (ext2, rem2) => some (ws ++ w ++ ext2, rem2)
        | none =>
          match rem with
          | [] => some (ws ++ w, rem)
          | d :: _ => if isWordChar d then none else some (ws ++ w, rem)

/-- One match of `\b[A-Z][a-z]+(?:\s+[A-Z][a-z]+)*\b` starting exactly here
(the leading boundary is checked by the scanner). -/
def capsMatchAt (s : Str) : Option (Str × Str) :=
  match capsWordAt s with
  | none => none
  | some (w1, r1) =>
    match capsExtend r1.length r1 with
    | some (ext, rem) => some (w1 ++ ext, rem)
    | none =>
      match r1 with
      | [] => some (w1, r1)
      | d :: _ => if isWordChar d then none else some (w1, r1)

def capsScanAux : Nat → Bool → Str → List Str
  | 0, _, _ => []
  | _, _, [] => []
  | fuel + 1, prevW, c :: rest =>
    if prevW then capsScanAux fuel (isWordChar c) rest
    else
      match capsMatchAt (c :: rest) with
      | some (m, rem) => m :: capsScanAux fuel true rem
      | none => capsScanAux fuel (isWordChar c) rest

/-- `re.findall(r'\b[A-Z][a-z]+(?:\s+[A-Z][a-z]+)*\b', text)` (duplicates kept). -/
def findCaps (s : Str) : List Str := capsScanAux s.length false s

/-- Search for `(19|20)\d{2}\s*[-–]\s*(19|20)?\d{2}` anchored at the head of `s`
(existence only; the optional century prefix of the second year is subsumed by
requiring two digits). -/
def yearRangeAt (s : Str) : Bool :=
  match s with
  | c1 :: c2 :: c3 :: c4 :: rest =>
    ((c1 = '1' && c2 = '9') || (c1 = '2' && c2 = '0')) && c3.isDigit && c4.isDigit &&
      (match rest.dropWhile isWsChar with
       | d :: r2 =>
         (d = '-' || d = '–') &&
           (match r2.dropWhile isWsChar with
            | a :: b :: _ => a.isDigit && b.isDigit
            | _ => false)
       | [] => false)
  | _ => false

def yearSearchAux : Str → Bool
  | [] => false
  | c :: rest => yearRangeAt (c :: rest) || yearSearchAux rest

/-- `re.search(r'(19|20)\d{2}\s*[-–]\s*(19|20)?\d{2}|Present', line)` as a Bool. -/
def year_search (line : Str) : Bool :=
  yearSearchAux line || containsSub ("Present".toList) line

/-- `re.split(r'\t|\s{2,}', line)[0]`: the prefix before the first tab or run of
two-or-more whitespace characters. -/
def firstSegFn : Str → Str
  | [] => []
  | c :: rest =>
    if c = '\t' then []
    else if isWsChar c && (match rest with | d :: _ => isWsChar d | [] => false) then []
    else c :: firstSegFn rest

/-- `re.sub(r'^[•\-\t\s]+', '', line).strip()`. -/
def stripBulletMarks (line : Str) : Str :=
  strip (line.dropWhile (fun c => c = '•' || c = '-' || c = '\t' || isWsChar c))

/-- `line.startswith('•') or line.startswith('-') or line.startswith('\t•')`. -/
def startsBullet (line : Str) : Bool :=
  match line with
  | c :: rest => c = '•' || c = '-' || (c = '\t' && (match rest with | d :: _ => d = '•' | [] => false))
  | [] => false

/-- `re.sub(r'[^a-zA-Z0-9]', '_', company.lower())[:20]`. -/
def sanitizeCompany (c : Str) : Str :=
  ((pyLower c).map (fun ch => if ch.isAlphanum then ch else '_')).take 20

/-- Length of group 1 of `re.match(r'^(.+?(?::|–)\s)', s)`: the lazy `.+?` finds the
first delimiter-then-whitespace position. -/
def labelScanAux : Str → Option Nat
  | d :: w :: rest =>
    if (d = ':' || d = '–') && isWsChar w then some 2
    else (labelScanAux (w :: rest)).map (· + 1)
  | _ => none

def labelLen (s : Str) : Option Nat :=
  (labelScanAux (s.drop 1)).map (· + 1)

/-! ## Configuration -/

def CHAR_LIMIT_summary_tagline : Nat × Nat := (60, 100)
def CHAR_LIMIT_summary_body : Nat × Nat := (300, 500)
def CHAR_LIMIT_highlight : Nat × Nat := (150, 250)
def CHAR_LIMIT_ONE_LINE : Nat × Nat := (80, 116)
def CHAR_LIMIT_TWO_LINE : Nat × Nat := (175, 235)
def CHAR_LIMIT_AWKWARD : Nat × Nat := (117, 174)

/-- The `INDUSTRY_TERMS` set, in source order (a Python set literal has no
duplicates; the extractor additionally guards with `seen_terms`). -/
def INDUSTRY_TERMS : List Str :=
  [ "product strategy".toList, "product vision".toList, "roadmap".toList,
    "strategic".toList, "vision".toList, "go-to-market".toList, "gtm".toList,
    "product-led growth".toList, "plg".toList, "north star".toList,
    "okrs".toList, "kpis".toList, "metrics".toList, "product-market fit".toList,
    "pmf".toList,
    "ai".toList, "ml".toList, "machine learning".toList,
    "artificial intelligence".toList, "deep learning".toList,
    "nlp".toList, "natural language processing".toList, "llm".toList,
    "large language model".toList, "genai".toList, "generative ai".toList,
    "agentic".toList, "autonomous".toList, "intelligent".toList,
    "recommendation".toList, "recommender".toList, "predictive".toList,
    "computer vision".toList,
    "product management".toList, "product lifecycle".toList, "0-1".toList,
    "zero-to-one".toList, "discovery".toList, "validation".toList,
    "mvp".toList, "iteration".toList, "experimentation".toList,
    "a/b testing".toList, "ab testing".toList, "hypothesis".toList,
    "user research".toList, "customer discovery".toList,
    "customer-centric".toList, "user-centric".toList,
    "design thinking".toList, "jtbd".toList, "jobs to be done".toList,
    "growth".toList, "acquisition".toList, "retention".toList,
    "engagement".toList, "conversion".toList,
    "arr".toList, "revenue".toList, "arpu".toList, "ltv".toList,
    "cltv".toList, "churn".toList, "nps".toList,
    "adoption".toList, "activation".toList, "onboarding".toList,
    "funnel".toList,
    "saas".toList, "b2b".toList, "b2c".toList, "b2b2c".toList,
    "platform".toList, "api".toList, "integration".toList,
    "data-driven".toList, "analytics".toList, "data strategy".toList,
    "scalable".toList, "scale".toList,
    "cross-functional".toList, "stakeholder".toList, "executive".toList,
    "leadership".toList, "team management".toList, "mentorship".toList,
    "coaching".toList, "collaboration".toList, "high-performing".toList,
    "building teams".toList, "scaling teams".toList,
    "agile".toList, "scrum".toList, "lean".toList, "kanban".toList,
    "sprint".toList, "velocity".toList,
    "fintech".toList, "healthtech".toList, "automotive".toList,
    "enterprise".toList, "consumer".toList, "e-commerce".toList,
    "ecommerce".toList, "web3".toList, "blockchain".toList ]

/-- The `STOPWORDS` set. -/
def STOPWORDS : List Str :=
  [ "the".toList, "a".toList, "an".toList, "and".toList, "or".toList,
    "but".toList, "in".toList, "on".toList, "at".toList, "to".toList,
    "for".toList, "of".toList, "with".toList, "by".toList, "from".toList,
    "as".toList, "is".toList, "was".toList, "are".toList, "were".toList,
    "been".toList, "be".toList, "have".toList, "has".toList, "had".toList,
    "do".toList, "does".toList, "did".toList, "will".toList, "would".toList,
    "could".toList, "should".toList, "may".toList, "might".toList,
    "must".toList, "that".toList, "which".toList, "who".toList,
    "this".toList, "these".toList, "those".toList, "it".toList,
    "its".toList, "i".toList, "my".toList, "our".toList, "we".toList,
    "they".toList, "their".toList, "your".toList, "up".toList, "out".toList,
    "into".toList, "over".toList, "under".toList, "through".toList,
    "during".toList, "before".toList, "after".toList, "above".toList,
    "below".toList, "between".toList, "among".toList, "while".toList,
    "when".toList, "where".toList, "how".toList, "what".toList,
    "why".toList, "all".toList, "each".toList, "every".toList,
    "both".toList, "few".toList, "more".toList, "most".toList,
    "other".toList, "some".toList, "such".toList, "no".toList,
    "not".toList, "only".toList, "same".toList, "so".toList, "than".toList,
    "too".toList, "very".toList, "just".toList, "also".toList,
    "now".toList, "new".toList, "first".toList, "last".toList,
    "long".toList, "great".toList, "little".toList, "own".toList,
    "well".toList, "back".toList, "way".toList, "even".toList,
    "still".toList, "here".toList, "there".toList, "then".toList,
    "can".toList, "any".toList, "about".toList, "across".toList,
    "within".toList, "including".toList, "led".toList, "leading".toList,
    "using".toList ]

/-! ## Data structures -/

structure Keyword where
  term : Str
  category : Str
  importance : Str
  source_context : Str
deriving DecidableEq

structure Bullet where
  id : Str
  text : Str
  char_count : Nat
  company : Str
  metrics : List Str
deriving DecidableEq

structure GapAnalysis where
  keyword : Str
  category : Str
  importance : Str
  status : Str
  match_locations : List Str
deriving DecidableEq

structure ResumeSummary where
  tagline : Str
  body : Str
  tagline_char_count : Nat
  body_char_count : Nat
deriving DecidableEq

structure CareerHighlight where
  id : Str
  label : Str
  text : Str
  full_text : Str
  char_count : Nat
  metrics : List Str
deriving DecidableEq

structure ParsedResume where
  summary : ResumeSummary
  highlights : List CareerHighlight
  experience_bullets : List Bullet
  raw_text : Str
deriving DecidableEq

/-! ## Keyword extraction -/

def categorize_keyword (term : Str) : Str :=
  let strategy := [ "product strategy".toList, "product vision".toList,
    "roadmap".toList, "strategic".toList, "vision".toList,
    "go-to-market".toList, "gtm".toList, "north star".toList,
    "product-market fit".toList, "pmf".toList ]
  let ai_ml := [ "ai".toList, "ml".toList, "machine learning".toList,
    "artificial intelligence".toList, "deep learning".toList,
    "nlp".toList, "natural language processing".toList, "llm".toList,
    "large language model".toList, "genai".toList, "generative ai".toList,
    "agentic".toList, "autonomous".toList, "intelligent".toList,
    "recommendation".toList, "recommender".toList, "predictive".toList,
    "computer vision".toList ]
  let outcomes := [ "growth".toList, "acquisition".toList, "retention".toList,
    "engagement".toList, "conversion".toList, "arr".toList, "revenue".toList,
    "arpu".toList, "ltv".toList, "cltv".toList, "churn".toList,
    "nps".toList, "adoption".toList, "activation".toList ]
  let methodology := [ "agile".toList, "scrum".toList, "lean".toList,
    "kanban".toList, "design thinking".toList, "a/b testing".toList,
    "ab testing".toList, "experimentation".toList, "jtbd".toList ]
  let leadership := [ "cross-functional".toList, "stakeholder".toList,
    "executive".toList, "leadership".toList, "team management".toList,
    "mentorship".toList, "coaching".toList, "collaboration".toList,
    "high-performing".toList, "building teams".toList, "scaling teams".toList ]
  let domain := [ "fintech".toList, "healthtech".toList, "automotive".toList,
    "enterprise".toList, "consumer".toList, "e-commerce".toList,
    "ecommerce".toList, "web3".toList, "blockchain".toList,
    "saas".toList, "b2b".toList, "b2c".toList ]
  if term ∈ strategy then "strategy".toList
  else if term ∈ ai_ml then "ai_ml".toList
  else if term ∈ outcomes then "outcome".toList
  else if term ∈ methodology then "methodology".toList
  else if term ∈ leadership then "leadership".toList
  else if term ∈ domain then "domain".toList
  else "skill".toList

/-- The 100-character window immediately preceding the first occurrence of `term`
in the lowered job description: `jd_lower[max(0, idx - 100) : idx]`. -/
def importanceWindow (jd term : Str) : Str :=
  let jdl := pyLower jd
  let idx := (pyFind term jdl).getD 0
  (jdl.take idx).drop (idx - 100)

/-- The keyword record built for one industry term found in the job description. -/
def mkIndustryKeyword (jd term : Str) : Keyword :=
  let jdl := pyLower jd
  let idx := (pyFind term jdl).getD 0
  let start := idx - 50
  let stop := min jdl.length (idx + term.length + 50)
  let context := strip ((jd.take stop).drop start)
  let window := importanceWindow jd term
  let importance :=
    if containsSub ("preferred".toList) window || containsSub ("nice to have".toList) window
    then "secondary".toList else "primary".toList
  ⟨term, categorize_keyword term, importance, context⟩

def industryKeywords (jd : Str) (seen : List Str) : List Str → List Keyword
  | [] => []
  | t :: ts =>
    if containsSub t (pyLower jd) && !decide (t ∈ seen) then
      mkIndustryKeyword jd t :: industryKeywords jd (t :: seen) ts
    else industryKeywords jd seen ts

/-- The synthetic qualification keyword for one `<N>+ years experience` match. -/
def mkExpKeyword (years : Str) : Keyword :=
  ⟨years ++ "+ years experience".toList, "qualification".toList, "primary".toList,
   "Requires ".toList ++ years ++ "+ years of experience".toList⟩

def extract_keywords (jd : Str) : List Keyword :=
  industryKeywords jd [] INDUSTRY_TERMS ++ (expMatches (pyLower jd)).map mkExpKeyword

/-! ## Gap analysis -/

def find_explicit_matches (keyword text : Str) : List Str :=
  if containsSub (pyLower keyword) (pyLower text) then
    ((splitOnNl text).filter
        (fun line => containsSub (pyLower keyword) (pyLower line))).map
      (fun line => (strip line).take 100)
  else []

def gapOf (resume_text corpus_text : Str) (kw : Keyword) : GapAnalysis :=
  let combined := resume_text ++ '\n' :: corpus_text
  let locs := find_explicit_matches kw.term combined
  ⟨kw.term, kw.category, kw.importance,
   if locs.isEmpty then "missing".toList else "explicit".toList,
   locs.take 3⟩

def compute_gap_analysis (kws : List Keyword) (resume_text corpus_text : Str) :
    List GapAnalysis :=
  kws.map (gapOf resume_text corpus_text)

/-! ## Resume parsing -/

/-- State of `split_into_sections`: current section tag (0 summary, 1 highlights,
2 experience) and the raw lines collected for each section. -/
structure SectionState where
  cur : Nat
  summaryLines : List Str
  highlightLines : List Str
  experienceLines : List Str

def sectionStep (st : SectionState) (line : Str) : SectionState :=
  let ls := strip line
  let lu := pyUpper ls
  if containsSub ("CAREER HIGHLIGHTS".toList) lu then
    { st with cur := 1 }
  else if lu = "PROFESSIONAL IMPACT".toList || lu = "EXPERIENCE".toList ||
      lu = "PROFESSIONAL EXPERIENCE".toList || lu = "WORK EXPERIENCE".toList then
    { st with cur := 2 }
  else if st.cur = 0 then { st with summaryLines := st.summaryLines ++ [line] }
  else if st.cur = 1 then { st with highlightLines := st.highlightLines ++ [line] }
  else { st with experienceLines := st.experienceLines ++ [line] }

def split_into_sections (resume_text : Str) : Str × Str × Str :=
  let fin := (splitOnNl resume_text).foldl sectionStep ⟨0, [], [], []⟩
  (strip (joinWith '\n' fin.summaryLines),
   strip (joinWith '\n' fin.highlightLines),
   strip (joinWith '\n' fin.experienceLines))

/-- `re.match(r'^[\d\-\.\(\)\s]+$', line)` truthiness on a stripped line. -/
def digitsPunctOnly (line : Str) : Bool :=
  !line.isEmpty && line.all (fun c => c.isDigit || c = '-' || c = '.' || c = '(' || c = ')' || isWsChar c)

def looksContact (line : Str) : Bool :=
  line.contains '@' || containsSub ("linkedin".toList) (pyLower line) || digitsPunctOnly line

def isNameLike (line : Str) : Bool :=
  decide (line.length < 30) && !(line.any (fun c => c = '|' || c = '–' || c = '-' || c = '•' || c = ':'))

def parse_summary_section (summary_text : Str) : ResumeSummary :=
  let lines := ((splitOnNl summary_text).map strip).filter (fun l => !l.isEmpty)
  let content := lines.filter (fun line => !looksContact line && !isNameLike line)
  match content with
  | [] => ⟨[], [], 0, 0⟩
  | first :: rest =>
    if first.contains '|' || decide (first.length < 120) then
      let body := joinWith ' ' rest
      ⟨first, body, first.length, body.length⟩
    else
      let tl := first.take 100
      let body := joinWith ' ' (first :: rest)
      ⟨tl, body, tl.length, body.length⟩

def hlStep (st : Nat × List CareerHighlight) (rawLine : Str) : Nat × List CareerHighlight :=
  let line := strip rawLine
  if line.isEmpty then st
  else if startsBullet line then
    let ft := stripBulletMarks line
    if decide (ft.length < 20) then st
    else
      let label := match labelLen ft with
        | some k => strip (ft.take k)
        | none => []
      let text := match labelLen ft with
        | some k => strip (ft.drop k)
        | none => ft
      (st.1 + 1,
       st.2 ++ [⟨"highlight_".toList ++ pyNatStr st.1, label, text, ft, ft.length,
                 findMetrics ft⟩])
  else st

def parse_highlights_section (highlights_text : Str) : List CareerHighlight :=
  ((splitOnNl highlights_text).foldl hlStep (0, [])).2

structure ExpState where
  company : Str
  count : Nat
  bullets : List Bullet
deriving DecidableEq

def expStep (st : ExpState) (rawLine : Str) : ExpState :=
  let line := strip rawLine
  if line.isEmpty then st
  else if year_search line then
    { st with company := (strip (firstSegFn line)).take 30 }
  else if startsBullet line then
    let bt := stripBulletMarks line
    if decide (bt.length < 20) then st
    else
      let cclean := sanitizeCompany st.company
      { company := st.company, count := st.count + 1,
        bullets := st.bullets ++
          [⟨cclean ++ '_' :: pyNatStr st.count, bt, bt.length, st.company,
            findMetrics bt⟩] }
  else st

def parse_experience_bullets (experience_text : Str) : List Bullet :=
  ((splitOnNl experience_text).foldl expStep ⟨"unknown".toList, 0, []⟩).bullets

def parse_resume (resume_text : Str) : ParsedResume :=
  let secs := split_into_sections resume_text
  ⟨parse_summary_section secs.1, parse_highlights_section secs.2.1,
   parse_experience_bullets secs.2.2, resume_text⟩

/-! ## Validation -/

inductive Warning where
  | charExceeded (char_count mx : Nat)
  | charShort (char_count mn : Nat)
  | charAwkward (char_count : Nat)
  | hallucinationRisk (words : List Str)
  | metricsLost (ms : List Str)
  | newProperNoun (cap : Str)
deriving DecidableEq

/-- Check 1 of `validate_edit`: the per-section character-limit warnings and
whether this check alone leaves the edit passing. -/
def charWarnings (section_type : Str) (cc : Nat) : List Warning × Bool :=
  if section_type = "summary_tagline".toList then
    if cc > CHAR_LIMIT_summary_tagline.2 then ([.charExceeded cc CHAR_LIMIT_summary_tagline.2], false)
    else if cc < CHAR_LIMIT_summary_tagline.1 then ([.charShort cc CHAR_LIMIT_summary_tagline.1], true)
    else ([], true)
  else if section_type = "summary_body".toList then
    if cc > CHAR_LIMIT_summary_body.2 then ([.charExceeded cc CHAR_LIMIT_summary_body.2], false)
    else if cc < CHAR_LIMIT_summary_body.1 then ([.charShort cc CHAR_LIMIT_summary_body.1], true)
    else ([], true)
  else if section_type = "highlight".toList then
    if cc > CHAR_LIMIT_highlight.2 then ([.charExceeded cc CHAR_LIMIT_highlight.2], false)
    else if cc < CHAR_LIMIT_highlight.1 then ([.charShort cc CHAR_LIMIT_highlight.1], true)
    else ([], true)
  else
    if CHAR_LIMIT_AWKWARD.1 ≤ cc ∧ cc ≤ CHAR_LIMIT_AWKWARD.2 then ([.charAwkward cc], true)
    else if cc > CHAR_LIMIT_TWO_LINE.2 then ([.charExceeded cc CHAR_LIMIT_TWO_LINE.2], false)
    else if cc < CHAR_LIMIT_ONE_LINE.1 then ([.charShort cc CHAR_LIMIT_ONE_LINE.1], true)
    else ([], true)

/-- Check 2: tokens in the proposed text, not in the original, not stopwords. -/
def newWords (original proposed : Str) : List Str :=
  (dedup (tokenize proposed)).filter
    (fun w => decide (w ∉ tokenize original) && decide (w ∉ STOPWORDS))

/-- Python `str.isdigit` (ASCII). -/
def pyIsDigit (w : Str) : Bool := !w.isEmpty && w.all Char.isDigit

def hallucinationWords (original proposed : Str) (corpus_words : List Str) : List Str :=
  (newWords original proposed).filter
    (fun w => !(pyIsDigit w || decide (w.length ≤ 2)) && decide (w ∉ corpus_words))

/-- Check 3: metrics of the original absent from the proposed. -/
def lostMetrics (original proposed : Str) : List Str :=
  (extract_metrics original).filter (fun m => decide (m ∉ extract_metrics proposed))

def replaceSpaceDash (s : Str) : Str := s.map (fun c => if c = ' ' then '-' else c)

/-- Check 4: capitalized sequences new to the proposed text and unknown to the corpus. -/
def newCapsList (original proposed : Str) : List Str :=
  (dedup (findCaps proposed)).filter (fun c => decide (c ∉ findCaps original))

def properNounWarnings (original proposed : Str) (corpus_words : List Str) : List Warning :=
  (newCapsList original proposed).filterMap (fun cap =>
    let cl := pyLower cap
    if decide (cl ∉ corpus_words) && decide (replaceSpaceDash cl ∉ corpus_words) then
      some (.newProperNoun cap)
    else none)

def validate_edit (original proposed : Str) (corpus_words : List Str)
    (section_type : Str) : List Warning × Bool :=
  let cc := proposed.length
  let cw := charWarnings section_type cc
  let hw := hallucinationWords original proposed corpus_words
  let lm := lostMetrics original proposed
  let w2 : List Warning := if hw.isEmpty then [] else [.hallucinationRisk hw]
  let w3 : List Warning := if lm.isEmpty then [] else [.metricsLost lm]
  (cw.1 ++ w2 ++ w3 ++ properNounWarnings original proposed corpus_words,
   cw.2 && hw.isEmpty && lm.isEmpty)

structure Edit where
  id : Option Str
  bullet_id : Option Str
  original : Str
  proposed : Str
  keyword_added : Option Str
  section_type : Option Str
deriving DecidableEq

structure ValidationResult where
  bullet_id : Str
  original : Str
  proposed : Str
  keyword_added : Str
  char_count : Nat
  warnings : List Warning
  passed : Bool
deriving DecidableEq

def processEdit (corpus_words : List Str) (e : Edit) : ValidationResult :=
  let st := e.section_type.getD ("bullet".toList)
  let r := validate_edit e.original e.proposed corpus_words st
  ⟨e.id.getD (e.bullet_id.getD ("unknown".toList)), e.original, e.proposed,
   e.keyword_added.getD [], e.proposed.length, r.1, r.2⟩

def run_validation (edits : List Edit) (corpus_words : List Str) : List ValidationResult :=
  edits.map (processEdit corpus_words)

/-! ## Derived notions used in the statements -/

/-- Whether a warning is one of the character-limit warnings. -/
def isCharWarning : Warning → Bool
  | .charExceeded _ _ => true
  | .charShort _ _ => true
  | .charAwkward _ => true
  | _ => false

/-- The maximum character count applicable to a section type (unknown section
types fall back to the bullet two-line maximum, as in `validate_edit`). -/
def applicableMax (section_type : Str) : Nat :=
  if section_type = "summary_tagline".toList then CHAR_LIMIT_summary_tagline.2
  else if section_type = "summary_body".toList then CHAR_LIMIT_summary_body.2
  else if section_type = "highlight".toList then CHAR_LIMIT_highlight.2
  else CHAR_LIMIT_TWO_LINE.2

/-- A word of the proper-noun regex: one upper-case letter followed by one or
more lower-case letters. -/
def capWordB : Str → Bool
  | [] => false
  | c :: rest => c.isUpper && !rest.isEmpty && rest.all Char.isLower

/-- Shape of every string matched by `\b[A-Z][a-z]+(?:\s+[A-Z][a-z]+)*\b`:
capitalized words separated by non-empty whitespace runs. -/
inductive CapShape : Str → Prop where
  | single (w : Str) : capWordB w = true → CapShape w
  | multi (w ws rest : Str) : capWordB w = true → ws ≠ [] →
      (∀ c ∈ ws, isWsChar c = true) → CapShape rest → CapShape (w ++ ws ++ rest)

/-- A `19xx`/`20xx` year at the head of `s` (no dash or second year required). -/
def fourYearAt (s : Str) : Bool :=
  match s with
  | c1 :: c2 :: c3 :: c4 :: _ =>
    ((c1 = '1' && c2 = '9') || (c1 = '2' && c2 = '0')) && c3.isDigit && c4.isDigit
  | _ => false

def yearClaimAux : Str → Bool
  | [] => false
  | c :: rest => fourYearAt (c :: rest) || yearClaimAux rest

/-- Modelled from the claim's words (C7): a line matches the year-range pattern
when it contains "a 19xx/20xx year optionally followed by a dash and another
year, or 'Present'" — so a lone four-digit year suffices.  This is the
claim's reading, to be compared with the source's `year_search`. -/
def year_search_claim (line : Str) : Bool :=
  yearClaimAux line || containsSub ("Present".toList) line

/-- Invariant of the highlights fold: every collected id is `highlight_<k>` with
`k` below the running counter, and the ids are pairwise distinct. -/
def HlInv (st : Nat × List CareerHighlight) : Prop :=
  (∀ h ∈ st.2, ∃ k, k < st.1 ∧ h.id = "highlight_".toList ++ pyNatStr k) ∧
    (st.2.map CareerHighlight.id).Nodup

/-- Invariant of the experience fold: every collected id is the sanitized company
of that bullet followed by `_<k>` with `k` below the running counter, and the
ids are pairwise distinct. -/
def ExpInv (st : ExpState) : Prop :=
  (∀ b ∈ st.bullets, ∃ k, k < st.count ∧
      b.id = sanitizeCompany b.company ++ '_' :: pyNatStr k) ∧
    (st.bullets.map Bullet.id).Nodup

/-- `pat` occurs as a contiguous substring of `s`. -/
def Occurs (pat s : Str) : Prop := ∃ a b, s = a ++ pat ++ b

/-- Decimal decoding, inverse to `pyNatStr`. -/
def decodeDigits (l : Str) : Nat :=
  l.foldl (fun a c => a * 10 + (c.toNat - 48)) 0

/-! # Theorems -/

/-! ## Basic lemmas about the string model -/

theorem mem_dedup {x : Str} : ∀ {l : List Str}, x ∈ dedup l ↔ x ∈ l := by
  intro l
  induction l with
  | nil => simp [dedup]
  | cons y ys ih =>
    simp only [dedup, List.mem_cons, List.mem_filter, decide_eq_true_iff]
    constructor
    · rintro (rfl | ⟨h, _⟩)
      · exact Or.inl rfl
      · exact Or.inr (ih.mp h)
    · rintro (rfl | h)
      · exact Or.inl rfl
      · by_cases hx : x = y
        · exact Or.inl hx
        · exact Or.inr ⟨ih.mpr h, hx⟩

theorem digitChar_ne_us : ∀ m : Nat, m < 10 → Nat.digitChar m ≠ '_' := by
  intro m h
  interval_cases m <;> decide

theorem digitChar_toNat : ∀ m : Nat, m < 10 → (Nat.digitChar m).toNat = 48 + m := by
  intro m h
  interval_cases m <;> decide

theorem natDigitsAux_no_us : ∀ fuel n c, c ∈ natDigitsAux fuel n → c ≠ '_' := by
  intro fuel
  induction fuel with
  | zero => intro n c h; simp [natDigitsAux] at h
  | succ f ih =>
    intro n c h
    by_cases h0 : n = 0
    · simp [natDigitsAux, h0] at h
    · simp only [natDigitsAux, if_neg h0, List.mem_append, List.mem_singleton] at h
      rcases h with h | rfl
      · exact ih _ _ h
      · exact digitChar_ne_us _ (Nat.mod_lt _ (by omega))

theorem pyNatStr_no_us : ∀ n c, c ∈ pyNatStr n → c ≠ '_' := by
  intro n c h
  unfold pyNatStr at h
  split at h
  · simp at h; subst h; decide
  · exact natDigitsAux_no_us _ _ _ h

theorem decodeDigits_append_one (l : Str) (c : Char) :
    decodeDigits (l ++ [c]) = decodeDigits l * 10 + (c.toNat - 48) := by
  simp [decodeDigits, List.foldl_append]

theorem decode_natDigitsAux : ∀ fuel n, n ≤ fuel → decodeDigits (natDigitsAux fuel n) = n := by
  intro fuel
  induction fuel with
  | zero =>
    intro n h
    have : n = 0 := by omega
    subst this
    decide
  | succ f ih =>
    intro n h
    by_cases h0 : n = 0
    · subst h0; simp [natDigitsAux, decodeDigits]
    · have hlt : n / 10 ≤ f := by
        have := Nat.div_lt_self (by omega : 0 < n) (by omega : 1 < 10)
        omega
      simp only [natDigitsAux, if_neg h0, decodeDigits_append_one, ih _ hlt,
        digitChar_toNat _ (Nat.mod_lt _ (by omega))]
      omega

theorem decode_pyNatStr : ∀ n, decodeDigits (pyNatStr n) = n := by
  intro n
  unfold pyNatStr
  split
  · subst n; decide
  · exact decode_natDigitsAux (n + 1) n (by omega)

theorem pyNatStr_inj {n m : Nat} (h : pyNatStr n = pyNatStr m) : n = m := by
  have h2 := congrArg decodeDigits h
  rwa [decode_pyNatStr, decode_pyNatStr] at h2

theorem us_append_inj : ∀ (a b x y : Str), (∀ c ∈ x, c ≠ '_') → (∀ c ∈ y, c ≠ '_') →
    a ++ '_' :: x = b ++ '_' :: y → a = b ∧ x = y := by
  intro a
  induction a with
  | nil =>
    intro b x y hx hy h
    cases b with
    | nil =>
      simp only [List.nil_append, List.cons.injEq] at h
      exact ⟨rfl, h.2⟩
    | cons c bs =>
      simp only [List.nil_append, List.cons_append, List.cons.injEq] at h
      have hmem : ('_' : Char) ∈ x := by rw [h.2]; simp
      exact absurd rfl (hx _ hmem)
  | cons c as ih =>
    intro b x y hx hy h
    cases b with
    | nil =>
      simp only [List.cons_append, List.nil_append, List.cons.injEq] at h
      have : ('_' : Char) ∈ y := by rw [← h.2]; simp
      exact absurd rfl (hy _ this)
    | cons d bs =>
      simp only [List.cons_append, List.cons.injEq] at h
      obtain ⟨rfl, h2⟩ := h
      obtain ⟨ha, hxy⟩ := ih bs x y hx hy h2
      exact ⟨by rw [ha], hxy⟩

/-! ## Character-limit dispatch -/

theorem charWarnings_default (st : Str) (cc : Nat)
    (h1 : st ≠ "summary_tagline".toList) (h2 : st ≠ "summary_body".toList)
    (h3 : st ≠ "highlight".toList) :
    charWarnings st cc = charWarnings ("bullet".toList) cc := by
  unfold charWarnings
  rw [if_neg h1, if_neg h2, if_neg h3,
    if_neg (show ¬("bullet".toList = "summary_tagline".toList) by decide),
    if_neg (show ¬("bullet".toList = "summary_body".toList) by decide),
    if_neg (show ¬("bullet".toList = "highlight".toList) by decide)]

/-- C9: `validate_edit` treats every `section_type` other than `summary_tagline`,
`summary_body` and `highlight` — including arbitrary unknown strings — exactly
like `bullet`, and `run_validation`'s per-edit processing substitutes `bullet`
when the `section_type` field is absent. -/
theorem claimC9_default_bullet :
    (∀ original proposed corpus_words st,
        st ≠ "summary_tagline".toList → st ≠ "summary_body".toList →
        st ≠ "highlight".toList →
        validate_edit original proposed corpus_words st =
          validate_edit original proposed corpus_words ("bullet".toList))
    ∧ (∀ corpus_words e, e.section_type = none →
        processEdit corpus_words e =
          processEdit corpus_words { e with section_type := some ("bullet".toList) }) := by
  constructor
  · intro o p c st h1 h2 h3
    simp only [validate_edit]
    rw [charWarnings_default st _ h1 h2 h3]
  · intro c e h
    simp only [processEdit, h, Option.getD_none, Option.getD_some]

/-- Witness for C9 at a concrete unknown section type and a concrete edit with
no `section_type` field. -/
theorem claimC9_witness :
    validate_edit ("a".toList) ("b".toList) [] ("custom_section".toList) =
      validate_edit ("a".toList) ("b".toList) [] ("bullet".toList)
    ∧ processEdit [] ⟨none, none, [], [], none, none⟩ =
      processEdit [] ⟨none, none, [], [], none, some ("bullet".toList)⟩ :=
  ⟨claimC9_default_bullet.1 _ _ _ _ (by decide) (by decide) (by decide),
   claimC9_default_bullet.2 [] ⟨none, none, [], [], none, none⟩ rfl⟩

/-- C2: for the default `bullet` section type, a proposed text of exactly 116
characters gets no character-limit warning; exactly 117 gets the non-blocking
`CHAR_AWKWARD`; exactly 175 gets no character-limit warning; exactly 236 gets
`CHAR_EXCEEDED` and fails. -/
theorem claimC2_char_bands :
    ((validate_edit (List.replicate 116 'a') (List.replicate 116 'a') []
        ("bullet".toList)).1.all (fun w => !isCharWarning w) = true)
    ∧ Warning.charAwkward 117 ∈
        (validate_edit (List.replicate 117 'a') (List.replicate 117 'a') [] ("bullet".toList)).1
    ∧ ((validate_edit (List.replicate 175 'a') (List.replicate 175 'a') []
        ("bullet".toList)).1.all (fun w => !isCharWarning w) = true)
    ∧ Warning.charExceeded 236 235 ∈
        (validate_edit (List.replicate 236 'a') (List.replicate 236 'a') [] ("bullet".toList)).1
    ∧ (validate_edit (List.replicate 236 'a') (List.replicate 236 'a') [] ("bullet".toList)).2
        = false := by
  set_option maxRecDepth 100000 in decide

/-! ## The pass/fail condition of validate_edit -/

theorem charPass_iff (st : Str) (cc : Nat) :
    (charWarnings st cc).2 = false ↔ cc > applicableMax st := by
  unfold charWarnings applicableMax
  split_ifs <;>
    simp_all [CHAR_LIMIT_summary_tagline, CHAR_LIMIT_summary_body, CHAR_LIMIT_highlight,
      CHAR_LIMIT_AWKWARD, CHAR_LIMIT_TWO_LINE, CHAR_LIMIT_ONE_LINE]
  all_goals omega

theorem halluc_mem_iff (o p : Str) (c : List Str) (w : Str) :
    w ∈ hallucinationWords o p c ↔
      (w ∈ tokenize p ∧ w ∉ tokenize o ∧ w ∉ STOPWORDS ∧
        pyIsDigit w = false ∧ 2 < w.length ∧ w ∉ c) := by
  unfold hallucinationWords newWords
  simp only [List.mem_filter, mem_dedup, decide_eq_true_iff, Bool.and_eq_true,
    Bool.not_eq_true', Bool.or_eq_false_iff, decide_eq_false_iff_not, Nat.not_le]
  tauto

theorem halluc_ne_nil_iff (o p : Str) (c : List Str) :
    hallucinationWords o p c ≠ [] ↔
      ∃ w, w ∈ tokenize p ∧ w ∉ tokenize o ∧ w ∉ STOPWORDS ∧
        pyIsDigit w = false ∧ 2 < w.length ∧ w ∉ c := by
  rw [Ne, List.eq_nil_iff_forall_not_mem]
  push_neg
  exact exists_congr fun w => halluc_mem_iff o p c w

theorem lost_mem_iff (o p m : Str) :
    m ∈ lostMetrics o p ↔ m ∈ extract_metrics o ∧ m ∉ extract_metrics p := by
  unfold lostMetrics
  simp [List.mem_filter, decide_eq_true_iff]

theorem lost_ne_nil_iff (o p : Str) :
    lostMetrics o p ≠ [] ↔ ∃ m, m ∈ extract_metrics o ∧ m ∉ extract_metrics p := by
  rw [Ne, List.eq_nil_iff_forall_not_mem]
  push_neg
  exact exists_congr fun m => lost_mem_iff o p m

theorem validate_passed_iff :
    ∀ original proposed corpus_words section_type,
      (validate_edit original proposed corpus_words section_type).2 = false ↔
        (proposed.length > applicableMax section_type
         ∨ (∃ w, w ∈ tokenize proposed ∧ w ∉ tokenize original ∧ w ∉ STOPWORDS ∧
              pyIsDigit w = false ∧ 2 < w.length ∧ w ∉ corpus_words)
         ∨ (∃ m, m ∈ extract_metrics original ∧ m ∉ extract_metrics proposed)) := by
  intro o p c st
  simp only [validate_edit, Bool.and_eq_false_iff]
  have e1 : ((hallucinationWords o p c).isEmpty = false) ↔ hallucinationWords o p c ≠ [] := by
    rw [Bool.eq_false_iff]
    exact not_congr List.isEmpty_iff
  have e2 : ((lostMetrics o p).isEmpty = false) ↔ lostMetrics o p ≠ [] := by
    rw [Bool.eq_false_iff]
    exact not_congr List.isEmpty_iff
  rw [charPass_iff st (List.length p), e1, e2, halluc_ne_nil_iff, lost_ne_nil_iff, or_assoc]

/-- C1: `validate_edit` fails (`passed = false`) exactly when the proposed text
exceeds the applicable maximum, or some new non-stopword non-numeric token of
length above 2 is absent from the corpus vocabulary, or some metric of the
original is absent from the proposed; `CHAR_SHORT`, `CHAR_AWKWARD` and
`NEW_PROPER_NOUN` alone never fail an edit. -/
theorem claimC1_passed_iff :
    ∀ original proposed corpus_words section_type,
      (validate_edit original proposed corpus_words section_type).2 = false ↔
        (proposed.length > applicableMax section_type
         ∨ (∃ w, w ∈ tokenize proposed ∧ w ∉ tokenize original ∧ w ∉ STOPWORDS ∧
              pyIsDigit w = false ∧ 2 < w.length ∧ w ∉ corpus_words)
         ∨ (∃ m, m ∈ extract_metrics original ∧ m ∉ extract_metrics proposed)) :=
  validate_passed_iff

/-- Witness for C1: a 240-character bullet edit fails by the first disjunct. -/
theorem claimC1_witness :
    (validate_edit (List.replicate 240 'a') (List.replicate 240 'a') []
      ("bullet".toList)).2 = false :=
  (claimC1_passed_iff _ _ _ _).mpr
    (Or.inl (by set_option maxRecDepth 100000 in decide))

/-! ## Warning kinds and the METRICS_LOST warning -/

theorem charWarnings_all_char (st : Str) (cc : Nat) (w : Warning)
    (h : w ∈ (charWarnings st cc).1) : isCharWarning w = true := by
  unfold charWarnings at h
  split_ifs at h <;> simp_all [isCharWarning]

theorem pn_all_pn (o p : Str) (c : List Str) (w : Warning)
    (h : w ∈ properNounWarnings o p c) :
    ∃ cap, w = Warning.newProperNoun cap ∧ cap ∈ newCapsList o p := by
  unfold properNounWarnings at h
  rw [List.mem_filterMap] at h
  obtain ⟨cap, hcap, heq⟩ := h
  dsimp only at heq
  split at heq
  · exact ⟨cap, (Option.some.injEq _ _ ▸ heq).symm, hcap⟩
  · exact absurd heq (by simp)

theorem metricsLost_mem_iff (o p : Str) (c : List Str) (st : Str) (ms : List Str) :
    Warning.metricsLost ms ∈ (validate_edit o p c st).1 ↔
      lostMetrics o p ≠ [] ∧ ms = lostMetrics o p := by
  simp only [validate_edit, List.mem_append]
  constructor
  · rintro (((h | h) | h) | h)
    · exact absurd (charWarnings_all_char _ _ _ h) (by simp [isCharWarning])
    · split at h <;> simp_all
    · split at h
      · simp_all
      · rename_i hne
        simp only [List.mem_singleton, Warning.metricsLost.injEq] at h
        refine ⟨?_, h⟩
        intro hnil
        exact hne (by rw [hnil]; rfl)
    · obtain ⟨cap, hc, _⟩ := pn_all_pn _ _ _ _ h
      exact absurd hc (by simp)
  · rintro ⟨hne, rfl⟩
    refine Or.inl (Or.inr ?_)
    rw [if_neg (by simpa [List.isEmpty_iff] using hne)]
    simp

/-- C3: the `METRICS_LOST` warning of `validate_edit` lists exactly the metrics
extracted from the original that are absent from the metrics extracted from the
proposed, and a non-empty loss always fails the edit; in particular dropping
"40%" from "Grew revenue by 40% through new pricing" yields `METRICS_LOST`
containing "40%" and `passed = false`. -/
theorem claimC3_metrics_lost :
    (∀ original proposed corpus_words section_type,
      (lostMetrics original proposed ≠ [] →
        Warning.metricsLost (lostMetrics original proposed) ∈
            (validate_edit original proposed corpus_words section_type).1
          ∧ (validate_edit original proposed corpus_words section_type).2 = false)
      ∧ (∀ ms, Warning.metricsLost ms ∈
            (validate_edit original proposed corpus_words section_type).1 →
          ms = lostMetrics original proposed ∧ ms ≠ [])
      ∧ (∀ m, m ∈ lostMetrics original proposed ↔
          m ∈ extract_metrics original ∧ m ∉ extract_metrics proposed))
    ∧ ("40%".toList ∈
        lostMetrics ("Grew revenue by 40% through new pricing".toList)
          ("Grew revenue through new pricing".toList)
      ∧ Warning.metricsLost
          (lostMetrics ("Grew revenue by 40% through new pricing".toList)
            ("Grew revenue through new pricing".toList)) ∈
          (validate_edit ("Grew revenue by 40% through new pricing".toList)
            ("Grew revenue through new pricing".toList) [] ("bullet".toList)).1
      ∧ (validate_edit ("Grew revenue by 40% through new pricing".toList)
          ("Grew revenue through new pricing".toList) [] ("bullet".toList)).2 = false) := by
  constructor
  · intro o p c st
    refine ⟨?_, ?_, fun m => lost_mem_iff o p m⟩
    · intro hne
      refine ⟨(metricsLost_mem_iff o p c st _).mpr ⟨hne, rfl⟩, ?_⟩
      exact (validate_passed_iff o p c st).mpr
        (Or.inr (Or.inr ((lost_ne_nil_iff o p).mp hne)))
    · intro ms hms
      obtain ⟨hne, rfl⟩ := (metricsLost_mem_iff o p c st ms).mp hms
      exact ⟨rfl, hne⟩
  · set_option maxRecDepth 100000 in decide

/-- Witness for C3 at a concrete edit that drops "30%" and "2x". -/
theorem claimC3_witness :
    Warning.metricsLost
        (lostMetrics ("Cut costs by 30% and churn by 2x".toList)
          ("Cut costs and churn overall".toList)) ∈
      (validate_edit ("Cut costs by 30% and churn by 2x".toList)
        ("Cut costs and churn overall".toList) [] ("highlight".toList)).1
    ∧ (validate_edit ("Cut costs by 30% and churn by 2x".toList)
        ("Cut costs and churn overall".toList) [] ("highlight".toList)).2 = false :=
  (claimC3_metrics_lost.1 _ _ _ _).1 (by decide)

/-! ## Shape of NEW_PROPER_NOUN payloads (C10) -/

theorem capsWordAt_spec (s w rem : Str) (h : capsWordAt s = some (w, rem)) :
    capWordB w = true := by
  cases s with
  | nil => simp [capsWordAt] at h
  | cons c rest =>
    simp only [capsWordAt] at h
    by_cases hu : c.isUpper = true
    · rw [if_pos hu] at h
      by_cases he : (rest.takeWhile Char.isLower).isEmpty = true
      · rw [if_pos he] at h
        exact absurd h (by simp)
      · rw [if_neg he] at h
        simp only [Option.some.injEq, Prod.mk.injEq] at h
        obtain ⟨hw, _⟩ := h
        subst hw
        simp only [capWordB, Bool.and_eq_true, List.all_eq_true]
        exact ⟨⟨hu, by simpa using he⟩, fun x hx => List.mem_takeWhile_imp hx⟩
    · rw [if_neg hu] at h
      exact absurd h (by simp)

theorem capsExtend_shape : ∀ fuel s ext rem, capsExtend fuel s = some (ext, rem) →
    ∀ w, capWordB w = true → CapShape (w ++ ext) := by
  intro fuel
  induction fuel with
  | zero => intro s ext rem h; simp [capsExtend] at h
  | succ f ih =>
    intro s ext rem h w hw
    simp only [capsExtend] at h
    by_cases hws : (s.takeWhile isWsChar).isEmpty = true
    · rw [if_pos hws] at h
      exact absurd h (by simp)
    · rw [if_neg hws] at h
      have hne : s.takeWhile isWsChar ≠ [] := by
        intro hnil
        exact hws (by rw [List.isEmpty_iff]; exact hnil)
      have hall : ∀ ch ∈ s.takeWhile isWsChar, isWsChar ch = true :=
        fun ch hch => List.mem_takeWhile_imp hch
      cases hcw : capsWordAt (s.dropWhile isWsChar) with
      | none =>
        rw [hcw] at h
        exact absurd h (by simp)
      | some pr =>
        obtain ⟨w2, rem2⟩ := pr
        rw [hcw] at h
        dsimp only at h
        have hw2 := capsWordAt_spec _ _ _ hcw
        cases hext : capsExtend f rem2 with
        | some pr2 =>
          obtain ⟨ext2, rem3⟩ := pr2
          rw [hext] at h
          dsimp only at h
          simp only [Option.some.injEq, Prod.mk.injEq] at h
          obtain ⟨hexteq, _⟩ := h
          subst hexteq
          have hshape : CapShape (w2 ++ ext2) := ih rem2 ext2 rem3 hext w2 hw2
          have hres := CapShape.multi w (s.takeWhile isWsChar) (w2 ++ ext2) hw hne hall hshape
          simpa [List.append_assoc] using hres
        | none =>
          rw [hext] at h
          dsimp only at h
          cases rem2 with
          | nil =>
            simp only [Option.some.injEq, Prod.mk.injEq] at h
            obtain ⟨hexteq, _⟩ := h
            subst hexteq
            have hres := CapShape.multi w (s.takeWhile isWsChar) w2 hw hne hall
              (CapShape.single w2 hw2)
            simpa [List.append_assoc] using hres
          | cons d r2 =>
            dsimp only at h
            by_cases hword : isWordChar d = true
            · rw [if_pos hword] at h
              exact absurd h (by simp)
            · rw [if_neg hword] at h
              simp only [Option.some.injEq, Prod.mk.injEq] at h
              obtain ⟨hexteq, _⟩ := h
              subst hexteq
              have hres := CapShape.multi w (s.takeWhile isWsChar) w2 hw hne hall
                (CapShape.single w2 hw2)
              simpa [List.append_assoc] using hres

theorem capsMatchAt_shape (s m rem : Str) (h : capsMatchAt s = some (m, rem)) :
    CapShape m := by
  unfold capsMatchAt at h
  cases hcw : capsWordAt s with
  | none =>
    rw [hcw] at h
    exact absurd h (by simp)
  | some pr =>
    obtain ⟨w1, r1⟩ := pr
    rw [hcw] at h
    dsimp only at h
    have hw1 := capsWordAt_spec _ _ _ hcw
    cases hext : capsExtend r1.length r1 with
    | some pr2 =>
      obtain ⟨ext, rem2⟩ := pr2
      rw [hext] at h
      dsimp only at h
      simp only [Option.some.injEq, Prod.mk.injEq] at h
      obtain ⟨hm, _⟩ := h
      subst hm
      exact capsExtend_shape _ _ _ _ hext w1 hw1
    | none =>
      rw [hext] at h
      dsimp only at h
      cases r1 with
      | nil =>
        simp only [Option.some.injEq, Prod.mk.injEq] at h
        obtain ⟨hm, _⟩ := h
        subst hm
        exact CapShape.single w1 hw1
      | cons d r2 =>
        dsimp only at h
        by_cases hword : isWordChar d = true
        · rw [if_pos hword] at h
          exact absurd h (by simp)
        · rw [if_neg hword] at h
          simp only [Option.some.injEq, Prod.mk.injEq] at h
          obtain ⟨hm, _⟩ := h
          subst hm
          exact CapShape.single w1 hw1

theorem capsScanAux_shape : ∀ fuel prevW s m, m ∈ capsScanAux fuel prevW s → CapShape m := by
  intro fuel
  induction fuel with
  | zero => intro prevW s m h; simp [capsScanAux] at h
  | succ f ih =>
    intro prevW s m h
    cases s with
    | nil => simp [capsScanAux] at h
    | cons c rest =>
      simp only [capsScanAux] at h
      by_cases hp : prevW = true
      · rw [if_pos hp] at h
        exact ih _ _ _ h
      · rw [if_neg hp] at h
        cases hcm : capsMatchAt (c :: rest) with
        | none =>
          rw [hcm] at h
          exact ih _ _ _ h
        | some pr =>
          obtain ⟨mm, rem⟩ := pr
          rw [hcm] at h
          dsimp only at h
          rcases List.mem_cons.mp h with rfl | h2
          · exact capsMatchAt_shape _ _ _ hcm
          · exact ih _ _ _ h2

theorem findCaps_shape (s m : Str) (h : m ∈ findCaps s) : CapShape m :=
  capsScanAux_shape _ _ _ _ h

theorem pn_mem_findCaps (o p : Str) (c : List Str) (st : Str) (cap : Str)
    (h : Warning.newProperNoun cap ∈ (validate_edit o p c st).1) :
    cap ∈ findCaps p := by
  simp only [validate_edit, List.mem_append] at h
  rcases h with ((h | h) | h) | h
  · exact absurd (charWarnings_all_char _ _ _ h) (by simp [isCharWarning])
  · split at h <;> simp at h
  · split at h <;> simp at h
  · obtain ⟨cap2, heq, hmem⟩ := pn_all_pn _ _ _ _ h
    rw [Warning.newProperNoun.injEq] at heq
    subst heq
    unfold newCapsList at hmem
    rw [List.mem_filter] at hmem
    exact mem_dedup.mp hmem.1

/-- C10: every payload of a `NEW_PROPER_NOUN` warning is a sequence of words
each consisting of one upper-case letter followed by one or more lower-case
letters (separated by whitespace); consequently an all-upper-case acronym such
as "SQL" or "AI", or an internally capitalized token such as "McKinsey", never
triggers the warning. -/
theorem claimC10_proper_noun_shape :
    ∀ original proposed corpus_words section_type cap,
      Warning.newProperNoun cap ∈
          (validate_edit original proposed corpus_words section_type).1 →
        CapShape cap
        ∧ ((∀ ch ∈ cap, isWsChar ch = false) → capWordB cap = true)
        ∧ cap ≠ "SQL".toList ∧ cap ≠ "AI".toList ∧ cap ≠ "McKinsey".toList := by
  intro o p c st cap h
  have hm := pn_mem_findCaps o p c st cap h
  have hshape := findCaps_shape _ _ hm
  have hnows : (∀ ch ∈ cap, isWsChar ch = false) → capWordB cap = true := by
    intro hws
    cases hshape with
    | single w hw => exact hw
    | multi w ws rest hw hne hall _ =>
      obtain ⟨d, hd⟩ := List.exists_mem_of_ne_nil ws hne
      have ht : isWsChar d = true := hall d hd
      have hdm : d ∈ w ++ ws ++ rest := by
        simp only [List.mem_append]
        exact Or.inl (Or.inr hd)
      rw [hws d hdm] at ht
      exact absurd ht (by simp)
  refine ⟨hshape, hnows, ?_, ?_, ?_⟩ <;> rintro rfl
  · exact absurd (hnows (by decide)) (by decide)
  · exact absurd (hnows (by decide)) (by decide)
  · exact absurd (hnows (by decide)) (by decide)

/-- Witness for C10: the warning fires for "Zanzibar" on an empty corpus, and the
payload indeed has the capitalized-word shape. -/
theorem claimC10_witness : CapShape ("Zanzibar".toList) :=
  (claimC10_proper_noun_shape [] ("Zanzibar is nice".toList) [] ("bullet".toList)
    ("Zanzibar".toList) (by decide)).1

/-! ## Keyword extraction (C5, C6) -/

theorem industry_term_no_plus : ∀ t ∈ INDUSTRY_TERMS, ('+' : Char) ∉ t := by decide

theorem mkIndustry_term (jd t : Str) : (mkIndustryKeyword jd t).term = t := rfl

theorem mkExpKeyword_plus (y : Str) : ('+' : Char) ∈ (mkExpKeyword y).term :=
  List.mem_append.mpr (Or.inr (by decide))

theorem industry_mem : ∀ jd ts seen kw, kw ∈ industryKeywords jd seen ts →
    ∃ t ∈ ts, kw = mkIndustryKeyword jd t := by
  intro jd ts
  induction ts with
  | nil => intro seen kw h; simp [industryKeywords] at h
  | cons t2 ts ih =>
    intro seen kw h
    simp only [industryKeywords] at h
    by_cases hc : (containsSub t2 (pyLower jd) && !decide (t2 ∈ seen)) = true
    · rw [if_pos hc] at h
      rcases List.mem_cons.mp h with rfl | h2
      · exact ⟨t2, List.mem_cons_self _ _, rfl⟩
      · obtain ⟨t3, ht3, rfl⟩ := ih _ _ h2
        exact ⟨t3, List.mem_cons_of_mem _ ht3, rfl⟩
    · rw [if_neg hc] at h
      obtain ⟨t3, ht3, rfl⟩ := ih _ _ h
      exact ⟨t3, List.mem_cons_of_mem _ ht3, rfl⟩

theorem industry_count_le : ∀ jd ts seen t,
    ((industryKeywords jd seen ts).filter (fun kw => decide (kw.term = t))).length ≤
      (if t ∈ seen then 0 else 1) := by
  intro jd ts
  induction ts with
  | nil => intro seen t; simp [industryKeywords]
  | cons t2 ts ih =>
    intro seen t
    simp only [industryKeywords]
    by_cases hc : (containsSub t2 (pyLower jd) && !decide (t2 ∈ seen)) = true
    · rw [if_pos hc]
      have hnotseen : t2 ∉ seen := by
        have h2 := (Bool.and_eq_true _ _).mp hc |>.2
        simpa using h2
      by_cases ht : t2 = t
      · subst ht
        rw [List.filter_cons_of_pos (by simp [mkIndustry_term])]
        have hrec := ih (t2 :: seen) t2
        rw [if_pos (List.mem_cons_self _ _)] at hrec
        rw [if_neg hnotseen]
        simp only [List.length_cons]
        omega
      · rw [List.filter_cons_of_neg (by simp [mkIndustry_term]; exact ht)]
        have hrec := ih (t2 :: seen) t
        by_cases hs : t ∈ seen
        · rw [if_pos hs]
          rw [if_pos (List.mem_cons_of_mem _ hs)] at hrec
          exact hrec
        · rw [if_neg hs]
          rw [if_neg (by
            intro hmem
            rcases List.mem_cons.mp hmem with h | h
            · exact ht h.symm
            · exact hs h)] at hrec
          exact hrec
    · rw [if_neg hc]
      exact ih seen t

theorem categorize_ne_qual : ∀ t, categorize_keyword t ≠ "qualification".toList := by
  intro t
  unfold categorize_keyword
  dsimp only
  split_ifs <;> decide

theorem qual_filter_term_nil (jd t : Str) (ht : t ∈ INDUSTRY_TERMS) :
    ((expMatches (pyLower jd)).map mkExpKeyword).filter
      (fun kw => decide (kw.term = t)) = [] := by
  rw [List.filter_eq_nil_iff]
  intro kw hkw
  rw [List.mem_map] at hkw
  obtain ⟨y, _, rfl⟩ := hkw
  simp only [decide_eq_true_iff, Bool.not_eq_true]
  intro heq
  have hplus := mkExpKeyword_plus y
  rw [heq] at hplus
  exact industry_term_no_plus t ht hplus

/-- C5 counterexample: the job description
"5 years experience and 5 years experience" contains a single distinct year
count (5), yet `extract_keywords` produces the synthetic qualification keyword
twice — not once per distinct N. -/
theorem claimC5_counterexample :
    ((extract_keywords ("5 years experience and 5 years experience".toList)).filter
        (fun kw => decide (kw.term = "5+ years experience".toList))).length = 2
    ∧ ¬ ((extract_keywords ("5 years experience and 5 years experience".toList)).filter
        (fun kw => decide (kw.term = "5+ years experience".toList))).length = 1 := by
  set_option maxRecDepth 1000000 in decide

/-- C5 (amended): `extract_keywords` is deterministic and reports each industry
term at most once; the synthetic qualification keyword is produced once per
regex match occurrence, so the same year count appearing several times yields
several identical entries (not once per distinct N). -/
theorem claimC5_amended : ∀ jd,
    extract_keywords jd = extract_keywords jd
    ∧ (∀ t ∈ INDUSTRY_TERMS,
        ((extract_keywords jd).filter (fun kw => decide (kw.term = t))).length ≤ 1)
    ∧ (extract_keywords jd).filter
          (fun kw => decide (kw.category = "qualification".toList))
        = (expMatches (pyLower jd)).map mkExpKeyword := by
  intro jd
  refine ⟨rfl, ?_, ?_⟩
  · intro t ht
    unfold extract_keywords
    rw [List.filter_append, List.length_append, qual_filter_term_nil jd t ht]
    have h := industry_count_le jd INDUSTRY_TERMS [] t
    rw [if_neg (List.not_mem_nil t)] at h
    simpa using h
  · unfold extract_keywords
    rw [List.filter_append]
    have h1 : (industryKeywords jd [] INDUSTRY_TERMS).filter
        (fun kw => decide (kw.category = "qualification".toList)) = [] := by
      rw [List.filter_eq_nil_iff]
      intro kw hkw
      obtain ⟨t2, _, rfl⟩ := industry_mem _ _ _ _ hkw
      simp only [decide_eq_true_iff, Bool.not_eq_true]
      exact fun heq => categorize_ne_qual t2 heq
    have h2 : ((expMatches (pyLower jd)).map mkExpKeyword).filter
        (fun kw => decide (kw.category = "qualification".toList))
        = (expMatches (pyLower jd)).map mkExpKeyword := by
      rw [List.filter_eq_self]
      intro kw hkw
      rw [List.mem_map] at hkw
      obtain ⟨y, _, rfl⟩ := hkw
      simp [mkExpKeyword]
    rw [h1, h2, List.nil_append]

/-- Witness for C5 at a concrete job description and industry term. -/
theorem claimC5_witness :
    ((extract_keywords ("agile agile agile teams".toList)).filter
        (fun kw => decide (kw.term = "agile".toList))).length ≤ 1 :=
  (claimC5_amended _).2.1 _ (by decide)

theorem mkIndustry_importance (jd t : Str) :
    ((mkIndustryKeyword jd t).importance = "secondary".toList ↔
      (containsSub ("preferred".toList) (importanceWindow jd t) = true ∨
       containsSub ("nice to have".toList) (importanceWindow jd t) = true))
    ∧ ((mkIndustryKeyword jd t).importance = "primary".toList ↔
      ¬ (containsSub ("preferred".toList) (importanceWindow jd t) = true ∨
         containsSub ("nice to have".toList) (importanceWindow jd t) = true)) := by
  unfold mkIndustryKeyword
  dsimp only
  by_cases hc : (containsSub ("preferred".toList) (importanceWindow jd t)
      || containsSub ("nice to have".toList) (importanceWindow jd t)) = true
  · rw [if_pos hc]
    have hor := (Bool.or_eq_true _ _).mp hc
    exact ⟨iff_of_true rfl hor, iff_of_false (by decide) (not_not_intro hor)⟩
  · rw [if_neg hc]
    have hor : ¬ (containsSub ("preferred".toList) (importanceWindow jd t) = true ∨
        containsSub ("nice to have".toList) (importanceWindow jd t) = true) :=
      fun hh => hc ((Bool.or_eq_true _ _).mpr hh)
    exact ⟨iff_of_false (by decide) hor, iff_of_true rfl hor⟩

/-- C6: an industry term found in the job description gets importance
"secondary" exactly when "preferred" or "nice to have" occurs in the
100 characters immediately preceding its first occurrence, and "primary"
otherwise; in the scenario JD, "saas" and "agentic" are primary and
"fintech" is secondary. -/
theorem claimC6_importance :
    (∀ jd t kw, t ∈ INDUSTRY_TERMS → kw ∈ extract_keywords jd → kw.term = t →
      ((kw.importance = "secondary".toList ↔
         (containsSub ("preferred".toList) (importanceWindow jd t) = true ∨
          containsSub ("nice to have".toList) (importanceWindow jd t) = true))
       ∧ (kw.importance = "primary".toList ↔
         ¬ (containsSub ("preferred".toList) (importanceWindow jd t) = true ∨
            containsSub ("nice to have".toList) (importanceWindow jd t) = true))))
    ∧ (∃ kw ∈ extract_keywords
          ("5+ years experience in SaaS and agentic AI (preferred: fintech background)".toList),
        kw.term = "saas".toList ∧ kw.importance = "primary".toList)
    ∧ (∃ kw ∈ extract_keywords
          ("5+ years experience in SaaS and agentic AI (preferred: fintech background)".toList),
        kw.term = "agentic".toList ∧ kw.importance = "primary".toList)
    ∧ (∃ kw ∈ extract_keywords
          ("5+ years experience in SaaS and agentic AI (preferred: fintech background)".toList),
        kw.term = "fintech".toList ∧ kw.importance = "secondary".toList) := by
  refine ⟨?_, ?_, ?_, ?_⟩
  · intro jd t kw ht hmem hterm
    unfold extract_keywords at hmem
    rw [List.mem_append] at hmem
    rcases hmem with hmem | hmem
    · obtain ⟨t2, _, rfl⟩ := industry_mem _ _ _ _ hmem
      have ht2 : t2 = t := hterm
      subst ht2
      exact mkIndustry_importance jd t2
    · rw [List.mem_map] at hmem
      obtain ⟨y, _, rfl⟩ := hmem
      have hplus := mkExpKeyword_plus y
      rw [hterm] at hplus
      exact absurd hplus (industry_term_no_plus t ht)
  all_goals set_option maxRecDepth 1000000 in decide

/-- Witness for C6: the "fintech" keyword of the scenario JD is secondary, via
the main theorem. -/
theorem claimC6_witness :
    (mkIndustryKeyword
        ("5+ years experience in SaaS and agentic AI (preferred: fintech background)".toList)
        ("fintech".toList)).importance = "secondary".toList :=
  ((claimC6_importance.1
      ("5+ years experience in SaaS and agentic AI (preferred: fintech background)".toList)
      ("fintech".toList)
      (mkIndustryKeyword
        ("5+ years experience in SaaS and agentic AI (preferred: fintech background)".toList)
        ("fintech".toList))
      (by decide)
      (by set_option maxRecDepth 1000000 in decide) rfl).1).mpr
    (Or.inl (by set_option maxRecDepth 1000000 in decide))

/-! ## Experience parsing precedence (C7) -/

/-- C7 counterexample: this line contains a lone 19xx/20xx year, so it matches
the claim's reading of the year-range pattern ("a year optionally followed by a
dash and another year, or Present"), and it starts with a bullet glyph — yet
the parser produces a Bullet from it, because the source regex requires the
dash and a second pair of digits (or the substring "Present"). -/
theorem claimC7_counterexample :
    year_search_claim ("• 2020 vision delivered for the whole team".toList) = true
    ∧ year_search (strip ("• 2020 vision delivered for the whole team".toList)) = false
    ∧ startsBullet ("• 2020 vision delivered for the whole team".toList) = true
    ∧ (parse_experience_bullets
        ("• 2020 vision delivered for the whole team".toList)).length = 1 := by
  set_option maxRecDepth 100000 in decide

/-- C7 (amended): in the per-line step of `parse_experience_bullets` the
company-header check precedes the bullet check: every non-empty line matching
the source's year-range pattern — a 19xx/20xx year, a dash, and two more
digits (the century of the second year optional), or the substring "Present" —
only sets the current company to the stripped token before the first tab or
two-or-more-whitespace run, truncated to 30 characters, and never produces a
Bullet, even if the line starts with a bullet glyph or hyphen. -/
theorem claimC7_amended : ∀ st line, strip line ≠ [] → year_search (strip line) = true →
    expStep st line = { st with company := (strip (firstSegFn (strip line))).take 30 } := by
  intro st line h1 h2
  simp only [expStep]
  rw [if_neg (fun hh => h1 (List.isEmpty_iff.mp hh)), if_pos h2]

/-- Witness for C7 at a concrete header line that also starts with a hyphen. -/
theorem claimC7_witness :
    expStep ⟨"unknown".toList, 0, []⟩ ("- Acme Inc  2020 - 2021".toList)
      = ⟨"- Acme Inc".toList, 0, []⟩ := by
  rw [claimC7_amended _ _ (by decide) (by decide)]
  decide

/-! ## Id uniqueness in one parse run (C8) -/

theorem hlStep_inv (st : Nat × List CareerHighlight) (line : Str) (h : HlInv st) :
    HlInv (hlStep st line) := by
  simp only [hlStep]
  by_cases h1 : (strip line).isEmpty = true
  · rwa [if_pos h1]
  · rw [if_neg h1]
    by_cases h2 : startsBullet (strip line) = true
    · rw [if_pos h2]
      by_cases h3 : decide ((stripBulletMarks (strip line)).length < 20) = true
      · rwa [if_pos h3]
      · rw [if_neg h3]
        constructor
        · intro hl hmem
          rw [List.mem_append] at hmem
          rcases hmem with hmem | hmem
          · obtain ⟨k, hk, hid⟩ := h.1 hl hmem
            exact ⟨k, by omega, hid⟩
          · rw [List.mem_singleton] at hmem
            subst hmem
            exact ⟨st.1, by omega, rfl⟩
        · rw [List.map_append, List.nodup_append]
          refine ⟨h.2, by simp, ?_⟩
          intro a ha hb
          rw [List.mem_map] at ha
          obtain ⟨h2l, hm2, rfl⟩ := ha
          simp only [List.map_cons, List.map_nil, List.mem_singleton] at hb
          obtain ⟨k, hk, hid⟩ := h.1 h2l hm2
          rw [hid] at hb
          have hcancel : pyNatStr k = pyNatStr st.1 := List.append_cancel_left hb
          have := pyNatStr_inj hcancel
          omega
    · rwa [if_neg h2]

theorem foldl_hl_inv : ∀ (lines : List Str) st, HlInv st → HlInv (lines.foldl hlStep st) := by
  intro lines
  induction lines with
  | nil => intro st h; exact h
  | cons l ls ih => intro st h; exact ih _ (hlStep_inv _ _ h)

theorem parse_highlights_inv (t : Str) :
    HlInv ((splitOnNl t).foldl hlStep (0, [])) :=
  foldl_hl_inv _ _ ⟨fun _ hm => absurd hm (List.not_mem_nil _), List.nodup_nil⟩

theorem highlights_ids_nodup (t : Str) :
    ((parse_highlights_section t).map CareerHighlight.id).Nodup :=
  (parse_highlights_inv t).2

theorem highlights_ids_form (t : Str) :
    ∀ hl ∈ parse_highlights_section t, ∃ k, hl.id = "highlight_".toList ++ pyNatStr k :=
  fun hl hm => ((parse_highlights_inv t).1 hl hm).imp fun _ hk => hk.2

theorem expStep_inv (st : ExpState) (line : Str) (h : ExpInv st) :
    ExpInv (expStep st line) := by
  simp only [expStep]
  by_cases h1 : (strip line).isEmpty = true
  · rwa [if_pos h1]
  · rw [if_neg h1]
    by_cases h2 : year_search (strip line) = true
    · rw [if_pos h2]
      exact ⟨h.1, h.2⟩
    · rw [if_neg h2]
      by_cases h3 : startsBullet (strip line) = true
      · rw [if_pos h3]
        by_cases h4 : decide ((stripBulletMarks (strip line)).length < 20) = true
        · rwa [if_pos h4]
        · rw [if_neg h4]
          unfold ExpInv
          dsimp only
          constructor
          · intro b hb
            rw [List.mem_append] at hb
            rcases hb with hb | hb
            · obtain ⟨k, hk, hid⟩ := h.1 b hb
              exact ⟨k, by omega, hid⟩
            · rw [List.mem_singleton] at hb
              subst hb
              exact ⟨st.count, by omega, rfl⟩
          · rw [List.map_append, List.nodup_append]
            refine ⟨h.2, by simp, ?_⟩
            intro a ha hb
            rw [List.mem_map] at ha
            obtain ⟨b2, hb2m, rfl⟩ := ha
            simp only [List.map_cons, List.map_nil, List.mem_singleton] at hb
            obtain ⟨k, hk, hid⟩ := h.1 b2 hb2m
            rw [hid] at hb
            obtain ⟨_, hdig⟩ := us_append_inj _ _ _ _ (pyNatStr_no_us k)
              (pyNatStr_no_us st.count) hb
            have := pyNatStr_inj hdig
            omega
      · rwa [if_neg h3]

theorem foldl_exp_inv : ∀ (lines : List Str) st, ExpInv st → ExpInv (lines.foldl expStep st) := by
  intro lines
  induction lines with
  | nil => intro st h; exact h
  | cons l ls ih => intro st h; exact ih _ (expStep_inv _ _ h)

theorem parse_exp_inv (t : Str) :
    ExpInv ((splitOnNl t).foldl expStep ⟨"unknown".toList, 0, []⟩) :=
  foldl_exp_inv _ _ ⟨fun _ hm => absurd hm (List.not_mem_nil _), List.nodup_nil⟩

theorem exp_ids_nodup (t : Str) :
    ((parse_experience_bullets t).map Bullet.id).Nodup :=
  (parse_exp_inv t).2

theorem exp_ids_form (t : Str) :
    ∀ b ∈ parse_experience_bullets t,
      ∃ k, b.id = sanitizeCompany b.company ++ '_' :: pyNatStr k :=
  fun b hm => ((parse_exp_inv t).1 b hm).imp fun _ hk => hk.2

theorem highlight_id_ne_bullet_id (m k : Nat) (cc : Str) (hcc : cc ≠ "highlight".toList) :
    "highlight_".toList ++ pyNatStr m ≠ cc ++ '_' :: pyNatStr k := by
  intro h
  have h2 : ("highlight".toList : Str) ++ '_' :: pyNatStr m = cc ++ '_' :: pyNatStr k := h
  obtain ⟨hcc2, _⟩ := us_append_inj _ _ _ _ (pyNatStr_no_us m) (pyNatStr_no_us k) h2
  exact hcc hcc2.symm

theorem parse_resume_highlights (r : Str) :
    (parse_resume r).highlights = parse_highlights_section (split_into_sections r).2.1 := rfl

theorem parse_resume_exp (r : Str) :
    (parse_resume r).experience_bullets
      = parse_experience_bullets (split_into_sections r).2.2 := rfl

/-- C8 counterexample: a resume whose experience company is literally
"Highlight" makes a Bullet id collide with a CareerHighlight id within one
parse run. -/
theorem claimC8_counterexample :
    ¬ ((((parse_resume ("CAREER HIGHLIGHTS\n• Delivered excellent outcomes across teams\nEXPERIENCE\nHighlight  2020 - 2021\n• Shipped many products at great scale".toList)).highlights.map
          CareerHighlight.id) ++
        ((parse_resume ("CAREER HIGHLIGHTS\n• Delivered excellent outcomes across teams\nEXPERIENCE\nHighlight  2020 - 2021\n• Shipped many products at great scale".toList)).experience_bullets.map
          Bullet.id)).Nodup) := by
  set_option maxRecDepth 1000000 in decide

/-- C8 (amended): within one parse run, all Bullet ids and all CareerHighlight
ids are pairwise distinct, provided no sanitized company name of a produced
bullet is exactly "highlight" (a company named e.g. "Highlight" can collide
with a highlight id, as the counterexample shows). -/
theorem claimC8_amended : ∀ resume_text,
    (∀ b ∈ (parse_resume resume_text).experience_bullets,
        sanitizeCompany b.company ≠ "highlight".toList) →
    (((parse_resume resume_text).highlights.map CareerHighlight.id) ++
      ((parse_resume resume_text).experience_bullets.map Bullet.id)).Nodup := by
  intro r hcomp
  rw [List.nodup_append, parse_resume_highlights, parse_resume_exp]
  refine ⟨highlights_ids_nodup _, exp_ids_nodup _, ?_⟩
  intro a ha hb
  rw [List.mem_map] at ha hb
  obtain ⟨hl, hlm, rfl⟩ := ha
  obtain ⟨b2, hbm, hid⟩ := hb
  obtain ⟨m, hmid⟩ := highlights_ids_form _ _ hlm
  obtain ⟨k, hkid⟩ := exp_ids_form _ _ hbm
  apply highlight_id_ne_bullet_id m k (sanitizeCompany b2.company)
    (hcomp b2 (by rw [parse_resume_exp]; exact hbm))
  rw [← hmid, ← hkid]
  exact hid.symm

/-- Witness for C8 at a concrete resume whose company is not "Highlight". -/
theorem claimC8_witness :
    (((parse_resume ("CAREER HIGHLIGHTS\n• Delivered excellent outcomes across teams\nEXPERIENCE\nAcme Corp  2020 - 2021\n• Shipped many products at great scale".toList)).highlights.map
        CareerHighlight.id) ++
      ((parse_resume ("CAREER HIGHLIGHTS\n• Delivered excellent outcomes across teams\nEXPERIENCE\nAcme Corp  2020 - 2021\n• Shipped many products at great scale".toList)).experience_bullets.map
        Bullet.id)).Nodup :=
  claimC8_amended _ (by set_option maxRecDepth 1000000 in decide)

/-! ## Substring occurrence and gap analysis (C4) -/

theorem isPrefixOf_ex : ∀ (p s : Str), p.isPrefixOf s = true ↔ ∃ t, s = p ++ t := by
  intro p
  induction p with
  | nil => intro s; simp [List.isPrefixOf]
  | cons c cs ih =>
    intro s
    cases s with
    | nil => simp [List.isPrefixOf]
    | cons d ds =>
      simp only [List.isPrefixOf, Bool.and_eq_true, beq_iff_eq]
      rw [ih ds]
      constructor
      · rintro ⟨rfl, t, rfl⟩
        exact ⟨t, rfl⟩
      · rintro ⟨t, ht⟩
        simp only [List.cons_append, List.cons.injEq] at ht
        exact ⟨ht.1.symm, t, ht.2⟩

theorem occurs_nil_iff (pat : Str) : Occurs pat [] ↔ pat = [] := by
  unfold Occurs
  constructor
  · rintro ⟨a, b, h⟩
    have h2 := h.symm
    simp only [List.append_eq_nil, List.append_assoc] at h2
    exact h2.2.1
  · rintro rfl
    exact ⟨[], [], rfl⟩

theorem occurs_cons_of (pat rest : Str) (c : Char) (h : Occurs pat rest) :
    Occurs pat (c :: rest) := by
  obtain ⟨a, b, rfl⟩ := h
  exact ⟨c :: a, b, rfl⟩

theorem occurs_cons_iff (pat rest : Str) (c : Char) :
    Occurs pat (c :: rest) ↔ (∃ t, c :: rest = pat ++ t) ∨ Occurs pat rest := by
  constructor
  · rintro ⟨a, b, h⟩
    cases a with
    | nil => exact Or.inl ⟨b, by simpa using h⟩
    | cons a0 as =>
      simp only [List.cons_append, List.append_assoc, List.cons.injEq] at h
      exact Or.inr ⟨as, b, by rw [h.2, List.append_assoc]⟩
  · rintro (⟨t, ht⟩ | h)
    · exact ⟨[], t, by simpa using ht⟩
    · exact occurs_cons_of _ _ _ h

theorem containsSub_iff_occurs : ∀ (pat s : Str), containsSub pat s = true ↔ Occurs pat s := by
  intro pat s
  induction s with
  | nil =>
    unfold containsSub pyFind
    by_cases hp : pat = []
    · simp [hp, occurs_nil_iff]
    · simp [hp, occurs_nil_iff]
  | cons c rest ih =>
    unfold containsSub at ih ⊢
    simp only [pyFind]
    by_cases hpre : pat.isPrefixOf (c :: rest) = true
    · rw [if_pos hpre]
      obtain ⟨t, ht⟩ := (isPrefixOf_ex _ _).mp hpre
      exact iff_of_true rfl ⟨[], t, by simpa using ht⟩
    · rw [if_neg hpre,
        show (Option.map (fun x => x + 1) (pyFind pat rest)).isSome = (pyFind pat rest).isSome
          from by cases pyFind pat rest <;> rfl,
        ih, occurs_cons_iff]
      have hnot : ¬ ∃ t, c :: rest = pat ++ t :=
        fun ⟨t, ht⟩ => hpre ((isPrefixOf_ex _ _).mpr ⟨t, ht⟩)
      simp [hnot]

theorem splitOnNl_cons_nl (rest : Str) : splitOnNl ('\n' :: rest) = [] :: splitOnNl rest := by
  simp [splitOnNl]

theorem splitOnNl_cons_not (c : Char) (rest : Str) (hc : ¬ c = '\n') (h : Str)
    (tl : List Str) (hr : splitOnNl rest = h :: tl) :
    splitOnNl (c :: rest) = (c :: h) :: tl := by
  simp only [splitOnNl, if_neg hc, hr]

theorem splitOnNl_head : ∀ s : Str,
    ∃ tl, splitOnNl s = (s.takeWhile (fun c => !(c == '\n'))) :: tl := by
  intro s
  induction s with
  | nil => exact ⟨[], rfl⟩
  | cons c rest ih =>
    obtain ⟨tl, htl⟩ := ih
    by_cases hc : c = '\n'
    · subst hc
      refine ⟨splitOnNl rest, ?_⟩
      rw [splitOnNl_cons_nl, List.takeWhile_cons_of_neg (by simp)]
    · rw [splitOnNl_cons_not c rest hc _ _ htl]
      exact ⟨tl, by rw [List.takeWhile_cons_of_pos (by simp [hc])]⟩

theorem line_to_occurs : ∀ s l, l ∈ splitOnNl s → Occurs l s := by
  intro s
  induction s with
  | nil =>
    intro l h
    simp [splitOnNl] at h
    subst h
    exact ⟨[], [], rfl⟩
  | cons c rest ih =>
    intro l h
    by_cases hc : c = '\n'
    · subst hc
      rw [splitOnNl_cons_nl] at h
      rcases List.mem_cons.mp h with rfl | h2
      · exact ⟨[], '\n' :: rest, rfl⟩
      · exact occurs_cons_of _ _ _ (ih _ h2)
    · obtain ⟨tl, htl⟩ := splitOnNl_head rest
      rw [splitOnNl_cons_not c rest hc _ _ htl] at h
      rcases List.mem_cons.mp h with rfl | h2
      · refine ⟨[], rest.dropWhile (fun x => !(x == '\n')), ?_⟩
        rw [List.nil_append, List.cons_append, List.takeWhile_append_dropWhile]
      · have h3 : l ∈ splitOnNl rest := by
          rw [htl]
          exact List.mem_cons_of_mem _ h2
        exact occurs_cons_of _ _ _ (ih _ h3)

theorem pre_line : ∀ (pat s : Str), ('\n' ∉ pat) → (∃ t, s = pat ++ t) →
    ∃ u, s.takeWhile (fun c => !(c == '\n')) = pat ++ u := by
  intro pat
  induction pat with
  | nil => intro s _ _; exact ⟨_, rfl⟩
  | cons p ps ih =>
    rintro s hnl ⟨t, rfl⟩
    have hp : ¬ p = '\n' := fun hh => hnl (hh ▸ List.mem_cons_self _ _)
    rw [List.cons_append, List.takeWhile_cons_of_pos (by simp [hp])]
    obtain ⟨u, hu⟩ := ih (ps ++ t) (fun hm => hnl (List.mem_cons_of_mem _ hm)) ⟨t, rfl⟩
    exact ⟨u, by rw [hu, List.cons_append]⟩

theorem occurs_to_line : ∀ (s pat : Str), '\n' ∉ pat → Occurs pat s →
    ∃ l ∈ splitOnNl s, Occurs pat l := by
  intro s
  induction s with
  | nil =>
    intro pat _ h
    rw [occurs_nil_iff] at h
    subst h
    exact ⟨[], by simp [splitOnNl], ⟨[], [], rfl⟩⟩
  | cons c rest ih =>
    intro pat hnl h
    rcases (occurs_cons_iff _ _ _).mp h with ⟨t, ht⟩ | h2
    · obtain ⟨u, hu⟩ := pre_line pat (c :: rest) hnl ⟨t, ht⟩
      obtain ⟨tl, htl⟩ := splitOnNl_head (c :: rest)
      refine ⟨(c :: rest).takeWhile (fun x => !(x == '\n')), ?_, ⟨[], u, by rw [hu]; rfl⟩⟩
      rw [htl]
      exact List.mem_cons_self _ _
    · obtain ⟨l, hlm, hlo⟩ := ih pat hnl h2
      by_cases hc : c = '\n'
      · subst hc
        refine ⟨l, ?_, hlo⟩
        rw [splitOnNl_cons_nl]
        exact List.mem_cons_of_mem _ hlm
      · obtain ⟨tl, htl⟩ := splitOnNl_head rest
        rw [htl] at hlm
        rcases List.mem_cons.mp hlm with rfl | h3
        · refine ⟨c :: rest.takeWhile (fun x => !(x == '\n')), ?_, occurs_cons_of _ _ _ hlo⟩
          rw [splitOnNl_cons_not c rest hc _ _ htl]
          exact List.mem_cons_self _ _
        · refine ⟨l, ?_, hlo⟩
          rw [splitOnNl_cons_not c rest hc _ _ htl]
          exact List.mem_cons_of_mem _ h3

theorem lowerChar_nl : lowerChar '\n' = '\n' := by decide

theorem lowerChar_ne_nl : ∀ c, c ≠ '\n' → lowerChar c ≠ '\n' := by
  intro c hc
  unfold lowerChar
  cases hf : casePairs.find? (fun p => p.1 == c) with
  | none => simpa using hc
  | some pr =>
    have hmem := List.mem_of_find?_eq_some hf
    have hall : ∀ x ∈ casePairs, x.2 ≠ '\n' := by decide
    simpa using hall pr hmem

theorem pyLower_splitOnNl : ∀ s, splitOnNl (pyLower s) = (splitOnNl s).map pyLower := by
  intro s
  induction s with
  | nil => rfl
  | cons c rest ih =>
    by_cases hc : c = '\n'
    · subst hc
      rw [show pyLower ('\n' :: rest) = '\n' :: pyLower rest from by
        simp [pyLower, lowerChar_nl]]
      rw [splitOnNl_cons_nl, splitOnNl_cons_nl, ih, List.map_cons]
      rfl
    · obtain ⟨tl, htl⟩ := splitOnNl_head rest
      have hlc : ¬ lowerChar c = '\n' := lowerChar_ne_nl c hc
      obtain ⟨tl2, htl2⟩ := splitOnNl_head (pyLower rest)
      rw [show pyLower (c :: rest) = lowerChar c :: pyLower rest from rfl]
      rw [splitOnNl_cons_not _ _ hlc _ _ htl2, splitOnNl_cons_not _ _ hc _ _ htl]
      rw [List.map_cons]
      have hchain : ((pyLower rest).takeWhile (fun x => !(x == '\n'))) :: tl2
          = pyLower (rest.takeWhile (fun x => !(x == '\n'))) :: (tl.map pyLower) := by
        rw [← htl2, ih, htl, List.map_cons]
      rw [List.cons.injEq] at hchain
      rw [hchain.1, hchain.2]
      rfl

theorem nl_not_mem_pyLower : ∀ pat : Str, '\n' ∉ pat → '\n' ∉ pyLower pat := by
  intro pat h hm
  rw [pyLower, List.mem_map] at hm
  obtain ⟨a, ha, hla⟩ := hm
  by_cases hc : a = '\n'
  · exact h (hc ▸ ha)
  · exact lowerChar_ne_nl a hc hla

theorem find_matches_nil_iff (term comb : Str) (hnl : '\n' ∉ term) :
    find_explicit_matches term comb = [] ↔
      containsSub (pyLower term) (pyLower comb) = false := by
  unfold find_explicit_matches
  by_cases hc : containsSub (pyLower term) (pyLower comb) = true
  · rw [if_pos hc]
    refine iff_of_false ?_ (by simp [hc])
    intro hmap
    rw [List.map_eq_nil_iff, List.filter_eq_nil_iff] at hmap
    have hocc := (containsSub_iff_occurs _ _).mp hc
    obtain ⟨ll, hlm, hlo⟩ := occurs_to_line _ _ (nl_not_mem_pyLower _ hnl) hocc
    rw [pyLower_splitOnNl, List.mem_map] at hlm
    obtain ⟨line, hline, rfl⟩ := hlm
    exact hmap line hline ((containsSub_iff_occurs _ _).mpr hlo)
  · rw [if_neg hc]
    exact iff_of_true rfl (by simpa using hc)

theorem gap_status (resume_text corpus_text : Str) (kw : Keyword)
    (hnl : '\n' ∉ kw.term) :
    ((gapOf resume_text corpus_text kw).status = "missing".toList ↔
      containsSub (pyLower kw.term)
        (pyLower (resume_text ++ '\n' :: corpus_text)) = false)
    ∧ ((gapOf resume_text corpus_text kw).status = "explicit".toList ↔
      containsSub (pyLower kw.term)
        (pyLower (resume_text ++ '\n' :: corpus_text)) = true) := by
  unfold gapOf
  dsimp only
  by_cases hm : (find_explicit_matches kw.term (resume_text ++ '\n' :: corpus_text)).isEmpty = true
  · rw [if_pos hm]
    have hf := (find_matches_nil_iff kw.term _ hnl).mp (List.isEmpty_iff.mp hm)
    exact ⟨iff_of_true rfl hf, iff_of_false (by decide) (by simp [hf])⟩
  · rw [if_neg hm]
    have hne : ¬ find_explicit_matches kw.term (resume_text ++ '\n' :: corpus_text) = [] :=
      fun hh => hm (List.isEmpty_iff.mpr hh)
    have ht : containsSub (pyLower kw.term)
        (pyLower (resume_text ++ '\n' :: corpus_text)) = true := by
      by_contra hcc
      exact hne ((find_matches_nil_iff kw.term _ hnl).mpr (by simpa using hcc))
    exact ⟨iff_of_false (by decide) (by simp [ht]), iff_of_true rfl ht⟩

/-- C4 counterexample: a keyword containing a newline occurs (case-insensitive)
in the concatenation of resume and corpus, but the gap analysis still reports
it as "missing", because matches are only collected line by line. -/
theorem claimC4_counterexample :
    compute_gap_analysis [⟨"a\nb".toList, "skill".toList, "primary".toList, []⟩]
        ("a".toList) ("b".toList)
      = [⟨"a\nb".toList, "skill".toList, "primary".toList, "missing".toList, []⟩]
    ∧ containsSub (pyLower ("a\nb".toList))
        (pyLower ("a".toList ++ '\n' :: "b".toList)) = true := by
  decide

/-- C4 (amended): for every gap entry whose keyword contains no newline, the
status is "missing" exactly when the keyword does not occur as a
case-insensitive substring of the concatenation of resume text and corpus
text, and "explicit" exactly when it does. -/
theorem claimC4_amended : ∀ kws resume_text corpus_text g,
    g ∈ compute_gap_analysis kws resume_text corpus_text → '\n' ∉ g.keyword →
    ((g.status = "missing".toList ↔
        containsSub (pyLower g.keyword)
          (pyLower (resume_text ++ '\n' :: corpus_text)) = false)
     ∧ (g.status = "explicit".toList ↔
        containsSub (pyLower g.keyword)
          (pyLower (resume_text ++ '\n' :: corpus_text)) = true)) := by
  intro kws r c g hg hnl
  unfold compute_gap_analysis at hg
  rw [List.mem_map] at hg
  obtain ⟨kw, _, rfl⟩ := hg
  exact gap_status r c kw hnl

/-- Witness for C4 at a concrete keyword present in the resume text. -/
theorem claimC4_witness :
    (gapOf ("Built SaaS platforms at scale".toList) ("corpus text".toList)
        ⟨"saas".toList, "domain".toList, "primary".toList, []⟩).status
      = "explicit".toList :=
  ((claimC4_amended [⟨"saas".toList, "domain".toList, "primary".toList, []⟩]
      ("Built SaaS platforms at scale".toList) ("corpus text".toList)
      (gapOf ("Built SaaS platforms at scale".toList) ("corpus text".toList)
        ⟨"saas".toList, "domain".toList, "primary".toList, []⟩)
      (by decide) (by decide)).2).mpr (by decide)

end ResumeTailor
